import Mathlib

/-!
Verification of the direct-connect resource manager
(`plugins/resourcemanagers/directconnect/directconnect.go`).

The manager keeps a local registry (`protectedmap.ProtectedMap`) of
per-resource metadata and talks to an external broker (the queue).  We model
the registry as an association list with string keys, the broker as an
explicit state machine (the queue package is not part of the sources, so the
broker is modelled from the spec's Broker Client contract), and each facade
operation as a pure function that returns the Go result, the new combined
state, and the list of mutating broker calls it dispatched.
-/

namespace DirectConnect

/-- Association lists with string keys: the model of
`protectedmap.ProtectedMap` (and of Go maps generally).  A Go map has unique
keys; states produced by map operations keep the key list `Nodup`. -/
abbrev AListM (α : Type) := List (String × α)

/-- `m[k]` lookup: first binding of `k`, as the Go map lookup. -/
def alistGet {α : Type} : AListM α → String → Option α
  | [], _ => none
  | (k', v') :: rest, k => if k' == k then some v' else alistGet rest k

/-- `m[k] = v`: replace the binding of `k` if present, else append it. -/
def alistSet {α : Type} : AListM α → String → α → AListM α
  | [], k, v => [(k, v)]
  | (k', v') :: rest, k, v =>
    if k' == k then (k, v) :: rest else (k', v') :: alistSet rest k v

/-- `delete(m, k)`: drop every binding of `k`. -/
def alistDelete {α : Type} (m : AListM α) (k : String) : AListM α :=
  m.filter (fun p => p.1 != k)

/-- `len(m)`: `protectedmap.Count`. -/
def alistCount {α : Type} (m : AListM α) : Nat := m.length

/-- The key list, in iteration order. -/
def alistKeys {α : Type} (m : AListM α) : List String := m.map Prod.fst

/-- `resourceInfo` (directconnect.go:12-15): locally held metadata.
`time.Time` is modelled as `Nat`; the Go zero value is `0`. -/
structure ResourceInfo where
  notes : String
  lastGoodCheck : Nat
deriving Repr, DecidableEq

/-- `queue.Resource`, as far as this manager observes it: a name, the
address it was connected at, and a broker-owned status string. -/
structure QueueResource where
  name : String
  address : String
  status : String
deriving Repr, DecidableEq

/-- Modelled from the spec: the Broker Client (the `queue.Queue` package is
not among the sources; §6 gives its contract).  `resources` is the broker's
authoritative id-to-resource map, `nextId` feeds fresh ids, and the `*Fail`
predicates say which calls the broker fails (the contract lets every
mutating call return an error). `checkStatus` is the connection-health
oracle used by `CheckResourceConnectionStatus`. -/
structure BrokerState where
  resources : AListM QueueResource
  nextId : Nat
  addFail : String → Bool
  connectFail : String → Bool
  pauseFail : String → Bool
  resumeFail : String → Bool
  checkStatus : QueueResource → Bool

/-- The id the broker assigns to the next added resource. -/
def freshId (b : BrokerState) : String := "q" ++ toString b.nextId

/-- Modelled from the spec: `addResource(name) -> (id, error)` (§6).
On success the broker registers a new, not yet connected resource under a
fresh id. -/
def qAddResource (b : BrokerState) (name : String) :
    Except String String × BrokerState :=
  if b.addFail name then (.error "queue could not add the resource", b)
  else
    (.ok (freshId b),
     { b with
        resources := alistSet b.resources (freshId b) ⟨name, "", "pending"⟩,
        nextId := b.nextId + 1 })

/-- Modelled from the spec: `connectResource(id, address, tls) -> error`
(§6).  On success the resource is connected at `address` and its status
becomes `running` (§3: status domain includes running/paused; §4.2 state
machine: a connected resource is in the `connected` state). -/
def qConnectResource (b : BrokerState) (id address : String) :
    Except String Unit × BrokerState :=
  if b.connectFail address then (.error "queue could not connect to the resource", b)
  else
    match alistGet b.resources id with
    | none => (.error "queue has no resource with that id", b)
    | some r =>
      (.ok (),
       { b with resources := alistSet b.resources id { r with address := address, status := "running" } })

/-- Modelled from the spec: `removeResource(id) -> error` (§6).  Fails when
the broker does not know the id; on success the broker forgets it. -/
def qRemoveResource (b : BrokerState) (id : String) :
    Except String Unit × BrokerState :=
  match alistGet b.resources id with
  | none => (.error "queue has no resource with that id", b)
  | some _ => (.ok (), { b with resources := alistDelete b.resources id })

/-- Modelled from the spec: `pauseResource(id) -> error` (§6).  On success
the resource's status becomes `paused` (§4.2 state machine:
`--(pause)--> paused`). -/
def qPauseResource (b : BrokerState) (id : String) :
    Except String Unit × BrokerState :=
  if b.pauseFail id then (.error "queue could not pause the resource", b)
  else
    match alistGet b.resources id with
    | none => (.error "queue has no resource with that id", b)
    | some r =>
      (.ok (), { b with resources := alistSet b.resources id { r with status := "paused" } })

/-- Modelled from the spec: `resumeResource(id) -> error` (§6).  On success
the resource's status returns to `running` (§4.2: `--(resume)--> connected`). -/
def qResumeResource (b : BrokerState) (id : String) :
    Except String Unit × BrokerState :=
  if b.resumeFail id then (.error "queue could not resume the resource", b)
  else
    match alistGet b.resources id with
    | none => (.error "queue has no resource with that id", b)
    | some r =>
      (.ok (), { b with resources := alistSet b.resources id { r with status := "running" } })

/-- Modelled from the spec: `getResource(id) -> (resource, found)` (§6). -/
def qGetResource (b : BrokerState) (id : String) : Option QueueResource :=
  alistGet b.resources id

/-- The combined state the manager acts on: its registry plus the broker. -/
structure ManagerState where
  registry : AListM ResourceInfo
  broker : BrokerState

/-- A mutating call dispatched to the broker, recorded in operation traces. -/
inductive BrokerCall where
  | addResource (name : String)
  | connectResource (id : String) (address : String)
  | removeResource (id : String)
  | pauseResource (id : String)
  | resumeResource (id : String)
deriving Repr, DecidableEq

/-- The outcome of a facade operation: the Go error value, the state after,
and the mutating broker calls dispatched, in order. -/
structure OpResult where
  res : Except String Unit
  state : ManagerState
  calls : List BrokerCall

/-- `parseParams` (directconnect.go:237-243): builds a `resourceInfo` from
a params map.  `params["notes"]` is the Go map read (zero value `""` when
absent); `lastGoodCheck` is left at its zero value. -/
def parseParams (params : AListM String) : ResourceInfo :=
  { notes := (alistGet params "notes").getD "", lastGoodCheck := 0 }

/-- `AddResource` (directconnect.go:83-110): validates `address` then
`name`, asks the queue to add, then to connect, then writes the registry
entry. -/
def AddResource (s : ManagerState) (params : AListM String) : OpResult :=
  match alistGet params "address" with
  | none => ⟨.error "Cannot add resource, address was not specified.", s, []⟩
  | some address =>
    match alistGet params "name" with
    | none => ⟨.error "Cannot add resource, name was not specified.", s, []⟩
    | some name =>
      match qAddResource s.broker name with
      | (.error e, b1) => ⟨.error e, { s with broker := b1 }, [.addResource name]⟩
      | (.ok uuid, b1) =>
        match qConnectResource b1 uuid address with
        | (.error e, b2) =>
          ⟨.error e, { s with broker := b2 },
           [.addResource name, .connectResource uuid address]⟩
        | (.ok _, b2) =>
          ⟨.ok (),
           { registry := alistSet s.registry uuid (parseParams params), broker := b2 },
           [.addResource name, .connectResource uuid address]⟩

/-- `DeleteResource` (directconnect.go:112-125): asks the queue to remove
the id; only on success deletes the local entry. -/
def DeleteResource (s : ManagerState) (resourceid : String) : OpResult :=
  match qRemoveResource s.broker resourceid with
  | (.error e, b1) => ⟨.error e, { s with broker := b1 }, [.removeResource resourceid]⟩
  | (.ok _, b1) =>
    ⟨.ok (),
     { registry := alistDelete s.registry resourceid, broker := b1 },
     [.removeResource resourceid]⟩

/-- `GetResource` (directconnect.go:127-150): the broker resource plus a
parameter map rebuilt from the local metadata.  Read-only. -/
def GetResource (s : ManagerState) (resourceid : String) :
    Except String (QueueResource × AListM String) :=
  match qGetResource s.broker resourceid with
  | none => .error "Resource with requested ID not found in the queue."
  | some resource =>
    match alistGet s.registry resourceid with
    | none => .error "Resource with requested ID could not be found in direct connect resource manager."
    | some localres => .ok (resource, [("notes", localres.notes)])

/-- `UpdateResource` (directconnect.go:152-183): reads the current merged
view, overwrites the local entry from the new params, then — only when the
old broker status differs from `newstatus` — dispatches the matching
pause/resume call. -/
def UpdateResource (s : ManagerState) (resourceid newstatus : String)
    (newparams : AListM String) : OpResult :=
  match GetResource s resourceid with
  | .error e => ⟨.error e, s, []⟩
  | .ok (oldresource, _) =>
    let s1 : ManagerState :=
      { s with registry := alistSet s.registry resourceid (parseParams newparams) }
    if oldresource.status != newstatus then
      match newstatus with
      | "resume" =>
        match qResumeResource s1.broker resourceid with
        | (.error e, b1) =>
          ⟨.error e, { s1 with broker := b1 }, [.resumeResource resourceid]⟩
        | (.ok _, b1) =>
          ⟨.ok (), { s1 with broker := b1 }, [.resumeResource resourceid]⟩
      | "pause" =>
        match qPauseResource s1.broker resourceid with
        | (.error e, b1) =>
          ⟨.error e, { s1 with broker := b1 }, [.pauseResource resourceid]⟩
        | (.ok _, b1) =>
          ⟨.ok (), { s1 with broker := b1 }, [.pauseResource resourceid]⟩
      | _ => ⟨.ok (), s1, []⟩
    else ⟨.ok (), s1, []⟩

/-- `GetManagedResources` (directconnect.go:185-197): allocates a slice
already holding `Count` zero-value strings, then appends every key.  The
result therefore starts with `Count` empty strings. -/
def GetManagedResources (s : ManagerState) : List String :=
  List.replicate (alistCount s.registry) "" ++ alistKeys s.registry

/-- One iteration of the `Keep` loop body (directconnect.go:205-232) for a
snapshot entry: skip entries the queue no longer knows, otherwise advance
`lastGoodCheck` to `now` when the health check passes, and write the entry
back. -/
def keepStep (b : BrokerState) (now : Nat) (reg : AListM ResourceInfo)
    (entry : String × ResourceInfo) : AListM ResourceInfo :=
  match qGetResource b entry.1 with
  | none => reg
  | some queueResource =>
    let status := b.checkStatus queueResource
    let localResource := if status then { entry.2 with lastGoodCheck := now } else entry.2
    alistSet reg entry.1 localResource

/-- `Keep` (directconnect.go:202-235): iterates over a snapshot of the
registry, processing every entry; `now` stands for `time.Now()`. -/
def Keep (s : ManagerState) (now : Nat) : ManagerState :=
  { s with registry := s.registry.foldl (keepStep s.broker now) s.registry }

/-! ### Association-list lemmas -/

theorem alistGet_set_self {α : Type} (m : AListM α) (k : String) (v : α) :
    alistGet (alistSet m k v) k = some v := by
  induction m with
  | nil => simp [alistSet, alistGet]
  | cons p rest ih =>
    obtain ⟨k', v'⟩ := p
    by_cases h : k' = k <;> simp [alistSet, alistGet, h, ih]

theorem alistGet_set_ne {α : Type} (m : AListM α) {k k' : String} (v : α)
    (h : k' ≠ k) : alistGet (alistSet m k v) k' = alistGet m k' := by
  have hkk : ¬(k = k') := fun hh => h hh.symm
  induction m with
  | nil => simp [alistSet, alistGet, hkk]
  | cons p rest ih =>
    obtain ⟨k₀, v₀⟩ := p
    by_cases h0 : k₀ = k
    · subst h0
      simp [alistSet, alistGet, hkk]
    · by_cases h1 : k₀ = k' <;> simp [alistSet, alistGet, h0, h1, h, hkk, ih]

theorem alistKeys_set_of_mem {α : Type} (m : AListM α) {k : String} (v : α)
    (h : k ∈ alistKeys m) : alistKeys (alistSet m k v) = alistKeys m := by
  induction m with
  | nil => simp [alistKeys] at h
  | cons p rest ih =>
    obtain ⟨k₀, v₀⟩ := p
    by_cases h0 : k₀ = k
    · simp [alistSet, alistKeys, h0]
    · have h' : k ∈ k₀ :: alistKeys rest := by
        simpa only [alistKeys, List.map_cons] using h
      have hk : k ∈ alistKeys rest := by
        rcases List.mem_cons.mp h' with h1 | h1
        · exact absurd h1.symm h0
        · exact h1
      have := ih hk
      simp only [alistSet, beq_iff_eq, h0, if_false, alistKeys, List.map_cons] at this ⊢
      rw [this]

theorem mem_keys_of_get_eq_some {α : Type} {m : AListM α} {k : String} {v : α}
    (h : alistGet m k = some v) : k ∈ alistKeys m := by
  induction m with
  | nil => simp [alistGet] at h
  | cons p rest ih =>
    obtain ⟨k₀, v₀⟩ := p
    simp only [alistKeys, List.map_cons, List.mem_cons]
    by_cases h0 : k₀ = k
    · exact Or.inl h0.symm
    · simp only [alistGet, beq_iff_eq, h0, if_false] at h
      exact Or.inr (by simpa only [alistKeys] using ih h)

theorem get_delete_self {α : Type} (m : AListM α) (k : String) :
    alistGet (alistDelete m k) k = none := by
  induction m with
  | nil => rfl
  | cons p rest ih =>
    obtain ⟨k₀, v₀⟩ := p
    simp only [alistDelete, List.filter_cons] at ih ⊢
    by_cases h0 : k₀ = k
    · subst h0; simpa using ih
    · simpa [bne_iff_ne, h0, alistGet] using ih

theorem not_mem_keys_delete {α : Type} (m : AListM α) (k : String) :
    k ∉ alistKeys (alistDelete m k) := by
  induction m with
  | nil => simp [alistDelete, alistKeys]
  | cons p rest ih =>
    obtain ⟨k₀, v₀⟩ := p
    simp only [alistDelete, List.filter_cons] at ih ⊢
    by_cases h0 : k₀ = k
    · subst h0; simpa using ih
    · rw [if_pos (by simp [bne_iff_ne, h0])]
      intro hmem
      have h' : k ∈ k₀ :: alistKeys (rest.filter (fun p => p.1 != k)) := by
        simpa only [alistKeys, List.map_cons] using hmem
      rcases List.mem_cons.mp h' with h1 | h1
      · exact h0 h1.symm
      · exact ih h1

/-- The first binding found by `alistGet` splits the list: everything before
it has a different key. -/
theorem alistGet_eq_some_split {α : Type} {m : AListM α} {k : String} {v : α}
    (h : alistGet m k = some v) :
    ∃ l₁ l₂, m = l₁ ++ (k, v) :: l₂ ∧ ∀ e ∈ l₁, e.1 ≠ k := by
  induction m with
  | nil => simp [alistGet] at h
  | cons p rest ih =>
    obtain ⟨k₀, v₀⟩ := p
    by_cases h0 : k₀ = k
    · subst h0
      simp only [alistGet, beq_self_eq_true, if_true, Option.some.injEq] at h
      exact ⟨[], rest, by simp [h], by simp⟩
    · simp only [alistGet, beq_iff_eq, h0, if_false] at h
      obtain ⟨l₁, l₂, heq, hne⟩ := ih h
      refine ⟨(k₀, v₀) :: l₁, l₂, by simp [heq], ?_⟩
      intro e he
      rcases List.mem_cons.mp he with he | he
      · simpa [he] using h0
      · exact hne e he

/-! ### Keep-fold lemmas -/

theorem keepStep_get_ne (b : BrokerState) (now : Nat)
    (reg : AListM ResourceInfo) (entry : String × ResourceInfo) {k : String}
    (h : entry.1 ≠ k) :
    alistGet (keepStep b now reg entry) k = alistGet reg k := by
  unfold keepStep
  cases qGetResource b entry.1 with
  | none => rfl
  | some qr => exact alistGet_set_ne reg _ (fun hh => h hh.symm)

theorem keep_foldl_get_of_not_mem (b : BrokerState) (now : Nat)
    (l : AListM ResourceInfo) {k : String} :
    ∀ acc : AListM ResourceInfo, (∀ e ∈ l, e.1 ≠ k) →
      alistGet (l.foldl (keepStep b now) acc) k = alistGet acc k := by
  induction l with
  | nil => intro acc _; rfl
  | cons e rest ih =>
    intro acc h
    have h1 : e.1 ≠ k := h e (List.mem_cons_self e rest)
    have h2 : ∀ e' ∈ rest, e'.1 ≠ k := fun e' he' => h e' (List.mem_cons_of_mem e he')
    simp only [List.foldl_cons]
    rw [ih _ h2, keepStep_get_ne b now acc e h1]

theorem keepStep_keys (b : BrokerState) (now : Nat)
    (reg : AListM ResourceInfo) (entry : String × ResourceInfo)
    (h : entry.1 ∈ alistKeys reg) :
    alistKeys (keepStep b now reg entry) = alistKeys reg := by
  unfold keepStep
  cases qGetResource b entry.1 with
  | none => rfl
  | some qr => exact alistKeys_set_of_mem reg _ h

theorem keep_foldl_keys (b : BrokerState) (now : Nat)
    (l : AListM ResourceInfo) :
    ∀ acc : AListM ResourceInfo, (∀ e ∈ l, e.1 ∈ alistKeys acc) →
      alistKeys (l.foldl (keepStep b now) acc) = alistKeys acc := by
  induction l with
  | nil => intro acc _; rfl
  | cons e rest ih =>
    intro acc h
    have h1 : e.1 ∈ alistKeys acc := h e (List.mem_cons_self e rest)
    have hk : alistKeys (keepStep b now acc e) = alistKeys acc :=
      keepStep_keys b now acc e h1
    simp only [List.foldl_cons]
    rw [ih _ (fun e' he' => by
      rw [hk]; exact h e' (List.mem_cons_of_mem e he')), hk]

/-- Once `GetResource` succeeds inside `UpdateResource`, every later branch
has already overwritten the registry entry with `parseParams newparams`. -/
theorem update_registry_overwrite (s : ManagerState) (id st : String)
    (np : AListM String) (p : QueueResource × AListM String)
    (hg : GetResource s id = .ok p) :
    alistGet (UpdateResource s id st np).state.registry id =
      some (parseParams np) := by
  obtain ⟨old, pm'⟩ := p
  unfold UpdateResource
  rw [hg]
  dsimp only
  by_cases hst : (old.status != st) = true
  · rw [if_pos hst]
    split
    · rcases hr : qResumeResource
          { s with registry := alistSet s.registry id (parseParams np) }.broker id
        with ⟨r', b1⟩
      rcases r' with e | u <;> simp [hr, alistGet_set_self]
    · rcases hr : qPauseResource
          { s with registry := alistSet s.registry id (parseParams np) }.broker id
        with ⟨r', b1⟩
      rcases r' with e | u <;> simp [hr, alistGet_set_self]
    · exact alistGet_set_self _ _ _
  · rw [if_neg hst]
    exact alistGet_set_self _ _ _

/-! ### Concrete states used by witnesses and counterexamples -/

/-- A broker that knows no resource, fails no call, and reports every
health check as passing. -/
def okBroker : BrokerState :=
  ⟨[], 0, fun _ => false, fun _ => false, fun _ => false, fun _ => false, fun _ => true⟩

/-- The freshly set-up manager: empty registry, pristine broker. -/
def emptyState : ManagerState := ⟨[], okBroker⟩

/-- A registry holding the single resource `r1`. -/
def oneEntryState : ManagerState := ⟨[("r1", ⟨"", 0⟩)], okBroker⟩

/-- A manager and broker that both know `r1`, currently running. -/
def runningState : ManagerState :=
  ⟨[("r1", ⟨"", 0⟩)], { okBroker with resources := [("r1", ⟨"n", "a", "running"⟩)] }⟩

/-! ### Claim theorems -/

/-- C1: `GetManagedResources` is claimed to return exactly the set of
Registry keys.  On a registry holding the single key `r1` the code returns
`["", "r1"]`: the slice is allocated with length `Count()` (already filled
with zero-value strings) and the keys are then appended, so the result
contains the element `""` which is not a Registry key.  Every registered id
does appear, but the claim's second half fails. -/
theorem C1_getManagedResources_padded :
    alistKeys oneEntryState.registry = ["r1"] ∧
    GetManagedResources oneEntryState = ["", "r1"] ∧
    "" ∈ GetManagedResources oneEntryState ∧
    "" ∉ alistKeys oneEntryState.registry := by
  refine ⟨rfl, rfl, ?_, ?_⟩ <;> decide

/-- C2: pause is claimed to be idempotent at the broker-call level.  At the
failing input — `r1` running in the broker — the first
`UpdateResource(r1, "pause", {})` dispatches one pause call, after which the
broker reports status `paused`; the second `UpdateResource(r1, "pause", {})`
compares that status against the literal `"pause"`, finds them different,
and dispatches a second pause call instead of none. -/
theorem C2_pause_not_idempotent :
    (UpdateResource runningState "r1" "pause" []).calls =
      [.pauseResource "r1"] ∧
    qGetResource (UpdateResource runningState "r1" "pause" []).state.broker "r1" =
      some ⟨"n", "a", "paused"⟩ ∧
    (UpdateResource (UpdateResource runningState "r1" "pause" []).state
        "r1" "pause" []).calls = [.pauseResource "r1"] := by
  refine ⟨rfl, rfl, rfl⟩

/-- C3: on any params map missing `name` or missing `address`,
`AddResource` returns a validation error naming a field that is indeed
missing, leaves the registry exactly as it was, and dispatches no broker
call. -/
theorem C3_addResource_validation (s : ManagerState) (params : AListM String)
    (h : alistGet params "name" = none ∨ alistGet params "address" = none) :
    (AddResource s params).state.registry = s.registry ∧
    (AddResource s params).calls = [] ∧
    (((AddResource s params).res =
          .error "Cannot add resource, address was not specified." ∧
        alistGet params "address" = none) ∨
     ((AddResource s params).res =
          .error "Cannot add resource, name was not specified." ∧
        alistGet params "name" = none)) := by
  unfold AddResource
  cases ha : alistGet params "address" with
  | none => simp [ha]
  | some address =>
    cases hn : alistGet params "name" with
    | none => simp [hn]
    | some name =>
      rcases h with h | h
      · rw [hn] at h; exact absurd h (by simp)
      · rw [ha] at h; exact absurd h (by simp)

/-- C3 witness: the validation theorem applied to a params map that has an
address but no name. -/
theorem C3_addResource_validation_witness :
    (AddResource emptyState [("address", "10.0.0.5")]).state.registry =
      emptyState.registry ∧
    (AddResource emptyState [("address", "10.0.0.5")]).calls = [] ∧
    (((AddResource emptyState [("address", "10.0.0.5")]).res =
          .error "Cannot add resource, address was not specified." ∧
        alistGet [("address", "10.0.0.5")] "address" = none) ∨
     ((AddResource emptyState [("address", "10.0.0.5")]).res =
          .error "Cannot add resource, name was not specified." ∧
        alistGet [("address", "10.0.0.5")] "name" = none)) :=
  C3_addResource_validation emptyState [("address", "10.0.0.5")] (Or.inl rfl)

/-- C4: when the broker add step succeeds but the connect step fails,
`AddResource` returns the connect failure, the registry is untouched, and —
because the broker-assigned id was not a registry key before — no registry
entry exists for the new id after the call. -/
theorem C4_connect_failure_no_entry (s : ManagerState) (params : AListM String)
    (name address : String)
    (hn : alistGet params "name" = some name)
    (ha : alistGet params "address" = some address)
    (hA : s.broker.addFail name = false)
    (hc : s.broker.connectFail address = true)
    (hf : alistGet s.registry (freshId s.broker) = none) :
    (AddResource s params).res = .error "queue could not connect to the resource" ∧
    (AddResource s params).state.registry = s.registry ∧
    alistGet (AddResource s params).state.registry (freshId s.broker) = none := by
  unfold AddResource qAddResource qConnectResource
  simp [ha, hn, hA, hc, hf]

/-- A broker whose connect call fails for the address `badaddr`. -/
def badConnectState : ManagerState :=
  ⟨[], { okBroker with connectFail := fun a => a == "badaddr" }⟩

/-- C4 witness: the connect-failure theorem applied to a valid params map
aimed at the failing address. -/
theorem C4_connect_failure_no_entry_witness :
    (AddResource badConnectState [("name", "n1"), ("address", "badaddr")]).res =
      .error "queue could not connect to the resource" ∧
    (AddResource badConnectState [("name", "n1"), ("address", "badaddr")]).state.registry =
      badConnectState.registry ∧
    alistGet (AddResource badConnectState
        [("name", "n1"), ("address", "badaddr")]).state.registry
      (freshId badConnectState.broker) = none :=
  C4_connect_failure_no_entry badConnectState [("name", "n1"), ("address", "badaddr")]
    "n1" "badaddr" (by decide) (by decide) rfl (by decide) rfl

/-- A registry that holds the empty-string key next to `r2`, with the
broker also knowing the empty-string id, so its delete succeeds. -/
def emptyKeyState : ManagerState :=
  ⟨[("", ⟨"", 0⟩), ("r2", ⟨"", 0⟩)],
   { okBroker with resources := [("", ⟨"n", "a", "running"⟩)] }⟩

/-- C5 counterexample: the broker delete of the id `""` succeeds and the
registry entry is removed, yet the subsequent `GetManagedResources` still
contains `""`, because the listing pads its result with `Count` zero-value
strings. -/
theorem C5_counterexample_empty_id :
    (DeleteResource emptyKeyState "").res = .ok () ∧
    alistGet (DeleteResource emptyKeyState "").state.registry "" = none ∧
    "" ∈ GetManagedResources (DeleteResource emptyKeyState "").state := by
  refine ⟨rfl, rfl, ?_⟩; decide

/-- C5 (amended): `DeleteResource` asks the broker to remove the id; on
broker failure that error is returned and the registry is unchanged; on
success the registry entry is removed and — provided the id is not the empty
string, which the padded listing always contains while the registry is
non-empty — a subsequent `GetManagedResources` does not include it. -/
theorem C5_deleteResource_spec (s : ManagerState) (id : String) :
    (∀ e : String, (DeleteResource s id).res = .error e →
        (DeleteResource s id).state.registry = s.registry) ∧
    ((DeleteResource s id).res = .ok () →
        alistGet (DeleteResource s id).state.registry id = none ∧
        (id ≠ "" → id ∉ GetManagedResources (DeleteResource s id).state)) := by
  unfold DeleteResource qRemoveResource
  cases hq : alistGet s.broker.resources id with
  | none =>
    refine ⟨fun e _ => rfl, fun hok => absurd hok (by simp)⟩
  | some r =>
    refine ⟨fun e he => absurd he (by simp), fun _ => ⟨get_delete_self _ _, ?_⟩⟩
    intro hne hmem
    rcases List.mem_append.mp hmem with hm | hm
    · exact hne (List.eq_of_mem_replicate hm)
    · exact not_mem_keys_delete s.registry id hm

/-- C5 witness: the delete theorem applied on the failure side (unknown id
`zz` against the pristine broker) and on the success side (`r1`, known to
both sides). -/
theorem C5_deleteResource_spec_witness :
    (DeleteResource emptyState "zz").state.registry = emptyState.registry ∧
    alistGet (DeleteResource runningState "r1").state.registry "r1" = none ∧
    "r1" ∉ GetManagedResources (DeleteResource runningState "r1").state :=
  ⟨(C5_deleteResource_spec emptyState "zz").1 "queue has no resource with that id" rfl,
   ((C5_deleteResource_spec runningState "r1").2 rfl).1,
   ((C5_deleteResource_spec runningState "r1").2 rfl).2 (by decide)⟩

/-- C6: in a Keeper pass, every registry entry the broker still knows has
its `lastGoodCheck` advanced to the current time exactly when the health
check passes, and is left unchanged when it fails. -/
theorem C6_keep_health_update (s : ManagerState) (now : Nat) (id : String)
    (info : ResourceInfo) (qres : QueueResource)
    (hnd : (alistKeys s.registry).Nodup)
    (hreg : alistGet s.registry id = some info)
    (hq : qGetResource s.broker id = some qres) :
    alistGet (Keep s now).registry id =
      some (if s.broker.checkStatus qres then
              { info with lastGoodCheck := now }
            else info) := by
  obtain ⟨l₁, l₂, heq, hne₁⟩ := alistGet_eq_some_split hreg
  have hl₂ : ∀ e ∈ l₂, e.1 ≠ id := by
    have hnd' : (alistKeys l₁ ++ id :: alistKeys l₂).Nodup := by
      have := hnd
      rw [heq] at this
      simpa [alistKeys] using this
    have hid : id ∉ alistKeys l₂ :=
      (List.nodup_cons.mp hnd'.of_append_right).1
    intro e he heid
    exact hid (heid ▸ List.mem_map_of_mem Prod.fst he)
  unfold Keep
  rw [heq, List.foldl_append, List.foldl_cons,
    keep_foldl_get_of_not_mem s.broker now l₂ _ hl₂]
  unfold keepStep
  simpa [hq] using alistGet_set_self _ id _

/-- A one-entry manager whose broker health check reports failure. -/
def downState : ManagerState :=
  ⟨(Keep runningState 100).registry,
   { runningState.broker with checkStatus := fun _ => false }⟩

/-- C6 witness: the concrete two-tick scenario — a tick at time 100 with a
passing health check sets `lastGoodCheck(r1) = 100`, and a following tick at
time 105 with a failing check leaves it at 100. -/
theorem C6_keep_health_update_witness :
    alistGet (Keep runningState 100).registry "r1" = some ⟨"", 100⟩ ∧
    alistGet (Keep downState 105).registry "r1" = some ⟨"", 100⟩ := by
  constructor
  · have h := C6_keep_health_update runningState 100 "r1" ⟨"", 0⟩
      ⟨"n", "a", "running"⟩ (by decide) rfl rfl
    simpa [runningState, okBroker] using h
  · have h := C6_keep_health_update downState 105 "r1" ⟨"", 100⟩
      ⟨"n", "a", "running"⟩ (by decide) (by decide) (by decide)
    simpa [downState, runningState, okBroker] using h

/-- C7: a Keeper pass never removes (nor adds) a registry entry: the key
list of the registry after `Keep` is exactly the key list before, whether or
not individual broker lookups fail. -/
theorem C7_keep_preserves_keys (s : ManagerState) (now : Nat) :
    alistKeys (Keep s now).registry = alistKeys s.registry := by
  unfold Keep
  exact keep_foldl_keys s.broker now s.registry s.registry
    (fun e he => List.mem_map_of_mem Prod.fst he)

/-- C8: after a successful `AddResource`, the registry holds an entry under
the broker-assigned id whose notes are the `notes` field of the input params
(empty string when absent) and whose `lastGoodCheck` is the zero value; a
subsequent `GetResource` for that id returns the connected broker resource
merged with a params map carrying that notes value — in particular `""`
when the input had no `notes` key. -/
theorem C8_addResource_success (s : ManagerState) (params : AListM String)
    (name address : String)
    (hn : alistGet params "name" = some name)
    (ha : alistGet params "address" = some address)
    (hA : s.broker.addFail name = false)
    (hc : s.broker.connectFail address = false) :
    (AddResource s params).res = .ok () ∧
    alistGet (AddResource s params).state.registry (freshId s.broker) =
      some ⟨(alistGet params "notes").getD "", 0⟩ ∧
    GetResource (AddResource s params).state (freshId s.broker) =
      .ok (⟨name, address, "running"⟩,
           [("notes", (alistGet params "notes").getD "")]) ∧
    (alistGet params "notes" = none →
      (alistGet params "notes").getD "" = "") := by
  unfold AddResource qAddResource qConnectResource
  simp only [ha, hn, hA, Bool.false_eq_true, if_false, alistGet_set_self, hc]
  refine ⟨trivial, rfl, ?_, fun hno => by simp [hno]⟩
  unfold GetResource qGetResource
  simp [alistGet_set_self, parseParams]

/-- C8 witness: the success theorem applied to the pristine manager with
the spec's `name="node1"`, `address="10.0.0.5"` input, which carries no
`notes` key; the merged view carries `notes = ""`. -/
theorem C8_addResource_success_witness :
    (AddResource emptyState [("name", "node1"), ("address", "10.0.0.5")]).res =
      .ok () ∧
    alistGet (AddResource emptyState
        [("name", "node1"), ("address", "10.0.0.5")]).state.registry
      (freshId emptyState.broker) = some ⟨"", 0⟩ ∧
    GetResource (AddResource emptyState
        [("name", "node1"), ("address", "10.0.0.5")]).state
      (freshId emptyState.broker) =
      .ok (⟨"node1", "10.0.0.5", "running"⟩, [("notes", "")]) := by
  have h := C8_addResource_success emptyState
    [("name", "node1"), ("address", "10.0.0.5")] "node1" "10.0.0.5"
    (by decide) (by decide) rfl rfl
  exact ⟨h.1, h.2.1, h.2.2.1⟩

/-- C9: when `UpdateResource` dispatches a pause (or resume) call and the
broker fails it, the error is returned but the registry entry for the id has
already been overwritten with metadata derived from the new params — the
call traces show exactly the one failed dispatch and no rollback happens. -/
theorem C9_update_no_rollback (s : ManagerState) (id : String)
    (newparams : AListM String) (old : QueueResource) (pm : AListM String)
    (hget : GetResource s id = .ok (old, pm)) :
    (old.status ≠ "pause" → s.broker.pauseFail id = true →
      (UpdateResource s id "pause" newparams).res =
        .error "queue could not pause the resource" ∧
      alistGet (UpdateResource s id "pause" newparams).state.registry id =
        some (parseParams newparams) ∧
      (UpdateResource s id "pause" newparams).calls = [.pauseResource id]) ∧
    (old.status ≠ "resume" → s.broker.resumeFail id = true →
      (UpdateResource s id "resume" newparams).res =
        .error "queue could not resume the resource" ∧
      alistGet (UpdateResource s id "resume" newparams).state.registry id =
        some (parseParams newparams) ∧
      (UpdateResource s id "resume" newparams).calls = [.resumeResource id]) := by
  constructor
  · intro hst hfail
    unfold UpdateResource qPauseResource
    simp [hget, hst, hfail, alistGet_set_self]
  · intro hst hfail
    unfold UpdateResource qResumeResource
    simp [hget, hst, hfail, alistGet_set_self]

/-- A manager and broker that both know `r1`, with a broker that fails
every pause and resume call. -/
def failingOpsState : ManagerState :=
  ⟨[("r1", ⟨"x", 7⟩)],
   { okBroker with
      resources := [("r1", ⟨"n", "a", "running"⟩)],
      pauseFail := fun _ => true,
      resumeFail := fun _ => true }⟩

/-- C9 witness: the no-rollback theorem applied to `r1`, running, with a
broker failing both pause and resume; the new params carry a notes value and
a junk key. -/
theorem C9_update_no_rollback_witness :
    ((UpdateResource failingOpsState "r1" "pause" [("notes", "m"), ("junk", "j")]).res =
        .error "queue could not pause the resource" ∧
      alistGet (UpdateResource failingOpsState "r1" "pause"
          [("notes", "m"), ("junk", "j")]).state.registry "r1" =
        some (parseParams [("notes", "m"), ("junk", "j")]) ∧
      (UpdateResource failingOpsState "r1" "pause"
          [("notes", "m"), ("junk", "j")]).calls = [.pauseResource "r1"]) ∧
    ((UpdateResource failingOpsState "r1" "resume" [("notes", "m"), ("junk", "j")]).res =
        .error "queue could not resume the resource" ∧
      alistGet (UpdateResource failingOpsState "r1" "resume"
          [("notes", "m"), ("junk", "j")]).state.registry "r1" =
        some (parseParams [("notes", "m"), ("junk", "j")]) ∧
      (UpdateResource failingOpsState "r1" "resume"
          [("notes", "m"), ("junk", "j")]).calls = [.resumeResource "r1"]) := by
  have h := C9_update_no_rollback failingOpsState "r1"
    [("notes", "m"), ("junk", "j")] ⟨"n", "a", "running"⟩ [("notes", "x")] rfl
  exact ⟨h.1 (by decide) rfl, h.2 (by decide) rfl⟩

/-- C10: metadata derived from a params map keeps only the `notes` key —
`parseParams` ignores every other key; every successful `UpdateResource`
overwrites the entry with `parseParams newparams`, whose `lastGoodCheck` is
the zero value (so the previously recorded check time is discarded); and the
params map `GetResource` returns has exactly the single key `notes`. -/
theorem C10_metadata_only_notes (params : AListM String) (s : ManagerState)
    (id newstatus : String) (np : AListM String)
    (r : QueueResource) (pm : AListM String) :
    parseParams params =
      parseParams [("notes", (alistGet params "notes").getD "")] ∧
    (parseParams params).lastGoodCheck = 0 ∧
    ((UpdateResource s id newstatus np).res = .ok () →
      alistGet (UpdateResource s id newstatus np).state.registry id =
        some (parseParams np)) ∧
    (GetResource s id = .ok (r, pm) → alistKeys pm = ["notes"]) := by
  refine ⟨rfl, rfl, ?_, ?_⟩
  · intro hok
    cases hg : GetResource s id with
    | error e =>
      exfalso
      unfold UpdateResource at hok
      rw [hg] at hok
      simp at hok
    | ok p => exact update_registry_overwrite s id newstatus np p hg
  · intro hgr
    unfold GetResource at hgr
    cases hq : qGetResource s.broker id with
    | none => rw [hq] at hgr; simp at hgr
    | some qr =>
      rw [hq] at hgr
      cases hl : alistGet s.registry id with
      | none => rw [hl] at hgr; simp at hgr
      | some lr =>
        rw [hl] at hgr
        simp only [Except.ok.injEq, Prod.mk.injEq] at hgr
        rw [← hgr.2]
        rfl

/-- C10 witness: the metadata theorem applied to a params map holding a
`notes` value next to a junk key, an update with an unrecognized status on
the running `r1`, and the merged view for `r1`. -/
theorem C10_metadata_only_notes_witness :
    parseParams [("notes", "hello"), ("extra", "zz")] =
      parseParams [("notes", "hello")] ∧
    (parseParams [("notes", "hello"), ("extra", "zz")]).lastGoodCheck = 0 ∧
    alistGet (UpdateResource runningState "r1" "noop"
        [("notes", "hello"), ("extra", "zz")]).state.registry "r1" =
      some (parseParams [("notes", "hello"), ("extra", "zz")]) ∧
    alistKeys [("notes", "")] = ["notes"] := by
  have h := C10_metadata_only_notes [("notes", "hello"), ("extra", "zz")]
    runningState "r1" "noop" [("notes", "hello"), ("extra", "zz")]
    ⟨"n", "a", "running"⟩ [("notes", "")]
  exact ⟨h.1, h.2.1, h.2.2.1 rfl, h.2.2.2 rfl⟩

end DirectConnect
